import Mathlib

/-!
Verification of the H.264 stream analyzer (`analyze_video.py`).

The analyzer core is embedded shallowly:
* bytes are `Nat` values in a `List Nat` buffer,
* the NAL scanner `parse_nal_units` walks the buffer exactly as the
  `io.BytesIO` seek/read loop of the source does,
* the slice classifier `parse_slice_header`, the reference-frame
  aggregation `analyze_reference_frames`, the GOP segmenter
  `analyze_gop_structure` and the numeric aggregators are translated
  function by function,
* exact rational arithmetic (`ℚ`) stands for the source's numeric
  expressions, and `Real.sqrt` for the `** 0.5` power.
-/

/-- One parsed NAL unit, mirroring the dict built in `parse_nal_units`:
`{'type': .., 'data': .., 'size': .., 'offset': ..}`. -/
structure NalUnit where
  type : Nat
  data : List Nat
  size : Nat
  offset : Nat
deriving DecidableEq

/-- The slice-info dict built in `parse_slice_header`. -/
structure SliceInfo where
  nal_type : Nat
  slice_type : Option String
  frame_num : Option Nat
  idr_pic_id : Option Nat
  is_reference : Bool
deriving DecidableEq

/-- One entry of `frame_info` in `analyze_reference_frames`. -/
structure FrameInfo where
  nal_type : Nat
  slice_type : Option String
  is_reference : Bool
  size : Nat
deriving DecidableEq

/-- The result dict of `analyze_reference_frames`. -/
structure RefData where
  has_sps : Bool
  has_pps : Bool
  frames : List FrameInfo
deriving DecidableEq

/-- The inner loop of `parse_nal_units`: starting at byte position `j`,
return the position of the next start code, or the buffer length when
none is found.  `len(chunk) < 3` in the source is `d.length - j < 3`. -/
def findNextStart (d : List Nat) (j : Nat) : Nat :=
  if h : d.length - j < 3 then d.length
  else if (d.drop j).take 4 = [0, 0, 0, 1] ∨ (d.drop j).take 3 = [0, 0, 1] then j
  else findNextStart d (j + 1)
termination_by d.length - j
decreasing_by omega

/-- The outer loop of `parse_nal_units`, starting at byte position `i`:
break when fewer than 4 bytes remain, recognize a 4-byte then a 3-byte
start code, otherwise advance one byte; after a start code, cut the
payload at the next start code and emit the unit unless it is empty. -/
def scanOuter (d : List Nat) (i : Nat) : List NalUnit :=
  if h4 : d.length < i + 4 then []
  else if (d.drop i).take 4 = [0, 0, 0, 1] then
    let nalStart := i + 4
    let nextStart := findNextStart d nalStart
    let nalData := (d.drop nalStart).take (nextStart - nalStart)
    (if nalData = [] then [] else
      [{ type := nalData.headD 0 % 32, data := nalData,
         size := nextStart - nalStart, offset := nalStart }]) ++ scanOuter d nextStart
  else if (d.drop i).take 3 = [0, 0, 1] then
    let nalStart := i + 3
    let nextStart := findNextStart d nalStart
    let nalData := (d.drop nalStart).take (nextStart - nalStart)
    (if nalData = [] then [] else
      [{ type := nalData.headD 0 % 32, data := nalData,
         size := nextStart - nalStart, offset := nalStart }]) ++ scanOuter d nextStart
  else scanOuter d (i + 1)
termination_by d.length - i
decreasing_by
  · have h2 : findNextStart d (i + 4) ≤ d.length := by
      generalize i + 4 = j
      induction j using findNextStart.induct d with
      | case1 j h => rw [findNextStart]; simp [h]
      | case2 j h hsc => rw [findNextStart]; simp only [h, dite_false, if_pos hsc]; omega
      | case3 j h hsc ih => rw [findNextStart]; simp only [h, dite_false, if_neg hsc]; exact ih
    have h1 : ∀ j, j ≤ d.length → j ≤ findNextStart d j := by
      intro j
      induction j using findNextStart.induct d with
      | case1 j h => intro hj; rw [findNextStart]; simp [h, hj]
      | case2 j h hsc => intro hj; rw [findNextStart]; simp [h, hsc]
      | case3 j h hsc ih =>
        intro hj
        rw [findNextStart]
        simp only [h, dite_false, if_neg hsc]
        have h3 := ih (by omega)
        omega
    have h4 := h1 (i + 4) (by omega)
    omega
  · have h2 : findNextStart d (i + 3) ≤ d.length := by
      generalize i + 3 = j
      induction j using findNextStart.induct d with
      | case1 j h => rw [findNextStart]; simp [h]
      | case2 j h hsc => rw [findNextStart]; simp only [h, dite_false, if_pos hsc]; omega
      | case3 j h hsc ih => rw [findNextStart]; simp only [h, dite_false, if_neg hsc]; exact ih
    have h1 : ∀ j, j ≤ d.length → j ≤ findNextStart d j := by
      intro j
      induction j using findNextStart.induct d with
      | case1 j h => intro hj; rw [findNextStart]; simp [h, hj]
      | case2 j h hsc => intro hj; rw [findNextStart]; simp [h, hsc]
      | case3 j h hsc ih =>
        intro hj
        rw [findNextStart]
        simp only [h, dite_false, if_neg hsc]
        have h3 := ih (by omega)
        omega
    have h4 := h1 (i + 3) (by omega)
    omega
  · omega

/-- `parse_nal_units` from the source: scan the whole buffer from 0. -/
def parse_nal_units (d : List Nat) : List NalUnit := scanOuter d 0

/-- `parse_slice_header` from the source: refuse buffers shorter than 2
bytes, refuse non-slice NAL types, otherwise build the slice-info record
(`slice_type` is set only for types 5 and 1, `idr_pic_id` only for type
5, `is_reference` for types 1, 2, 5). -/
def parse_slice_header (nal_data : List Nat) : Option SliceInfo :=
  if nal_data.length < 2 then none
  else
    let nal_type := nal_data.headD 0 % 32
    if nal_type ∈ ([1, 2, 3, 4, 5] : List Nat) then
      some { nal_type := nal_type
           , slice_type :=
               if nal_type = 5 then some "I"
               else if nal_type = 1 then some "P/B"
               else none
           , frame_num := none
           , idr_pic_id := if nal_type = 5 then some 0 else none
           , is_reference := decide (nal_type ∈ ([1, 2, 5] : List Nat)) }
    else none

/-- The accumulation loop of `analyze_reference_frames`: walk the units,
record SPS/PPS presence, and append a frame record for every slice unit
the classifier accepts. -/
def arfLoop : List NalUnit → Bool → Bool → List FrameInfo → RefData
  | [], sps, pps, fs => ⟨sps, pps, fs⟩
  | u :: rest, sps, pps, fs =>
    if u.type = 7 then arfLoop rest true pps fs
    else if u.type = 8 then arfLoop rest sps true fs
    else if u.type ∈ ([1, 2, 3, 4, 5] : List Nat) then
      match parse_slice_header u.data with
      | some si => arfLoop rest sps pps
          (fs ++ [⟨u.type, si.slice_type, si.is_reference, u.size⟩])
      | none => arfLoop rest sps pps fs
    else arfLoop rest sps pps fs

/-- `analyze_reference_frames` from the source. -/
def analyze_reference_frames (nal_units : List NalUnit) : RefData :=
  arfLoop nal_units false false []

/-- One frame record as supplied by the metadata collaborator
(`frame.get('pict_type', 'Unknown')`, `frame.get('pts', 'N/A')`). -/
structure FrameRecord where
  pict_type : Option String
  pts : Option Int
deriving DecidableEq

/-- One entry of a GOP as built by `analyze_gop_structure`:
`{'index': i, 'type': frame_type, 'pts': ...}`. -/
structure GopFrame where
  index : Nat
  ftype : String
  pts : Option Int
deriving DecidableEq

/-- The loop of `analyze_gop_structure`: an I-frame closes the currently
open GOP (when non-empty) and opens a new one; other frames append to
the open GOP; the final open GOP is emitted when non-empty. -/
def gopLoop : List FrameRecord → Nat → List (List GopFrame) → List GopFrame →
    List (List GopFrame)
  | [], _, gops, current => if current = [] then gops else gops ++ [current]
  | f :: rest, i, gops, current =>
    let ft := f.pict_type.getD "Unknown"
    if ft = "I" then
      gopLoop rest (i + 1) (if current = [] then gops else gops ++ [current])
        [⟨i, ft, f.pts⟩]
    else
      gopLoop rest (i + 1) gops (current ++ [⟨i, ft, f.pts⟩])

/-- `analyze_gop_structure` from the source. -/
def analyze_gop_structure (frames : List FrameRecord) : List (List GopFrame) :=
  gopLoop frames 0 [] []

/-- The average-bitrate computation of `print_bitrate_analysis`
(lines 95–99): per-frame bits, total bits, duration, and the guarded
division. -/
def avg_bitrate_of (frame_sizes : List ℚ) (framerate : ℚ) : ℚ :=
  let frame_bits := frame_sizes.map (· * 8)
  let total_bits := frame_bits.sum
  let duration := (frame_sizes.length : ℚ) / framerate
  if 0 < duration then total_bits / duration else 0

/-- The average-bitrate computation of `analyze_video` (lines 727–728):
`(sum(frame_sizes) * 8) / duration if duration > 0 else 0`. -/
def analyze_video_avg_bitrate (frame_sizes : List ℚ) (framerate : ℚ) : ℚ :=
  let duration := (frame_sizes.length : ℚ) / framerate
  if 0 < duration then frame_sizes.sum * 8 / duration else 0

/-- The reference ratio of `analyze_video` (lines 734–738):
`total_ref / len(ref_frames) * 100`, and 0 on an empty list. -/
def ref_ratio_of (frames : List FrameInfo) : ℚ :=
  if frames = [] then 0
  else ((frames.countP (fun f => f.is_reference)) : ℚ) / frames.length * 100

/-- The reference ratio of `print_reference_analysis` (lines 536–548):
IDR count plus non-IDR reference count, over the frame total. -/
def print_ref_ratio_of (frames : List FrameInfo) : ℚ :=
  let idr_count := frames.countP (fun f => f.nal_type = 5)
  let non_idr_ref_count :=
    frames.countP (fun f => decide (f.nal_type ∈ ([1, 2] : List Nat)) && f.is_reference)
  let ref_frames := idr_count + non_idr_ref_count
  if frames = [] then 0 else (ref_frames : ℚ) / frames.length * 100

/-- Mean frame size in `analyze_quantization_and_motion`:
`sum(sizes) / len(sizes)`. -/
def frame_avg (sizes : List ℚ) : ℚ := sizes.sum / sizes.length

/-- The radicand of the frame-size standard deviation in
`analyze_quantization_and_motion` (lines 619 and 624):
`sum((x - avg)**2 for x in sizes) / len(sizes)` — divisor `n`. -/
def frame_var (sizes : List ℚ) : ℚ :=
  (sizes.map (fun x => (x - frame_avg sizes) ^ 2)).sum / sizes.length

/-- The reported standard deviation (`(...)**0.5` in the source). -/
noncomputable def frame_std (sizes : List ℚ) : ℝ :=
  Real.sqrt ((frame_var sizes : ℚ) : ℝ)

/-- Modelled from the spec: the sample (Bessel-corrected) standard
deviation `sqrt(sum((x-mean)^2) / (n-1))`, which the spec says the code
does NOT use. -/
noncomputable def bessel_std_spec (sizes : List ℚ) : ℝ :=
  Real.sqrt ((((sizes.map (fun x => (x - frame_avg sizes) ^ 2)).sum /
    ((sizes.length : ℚ) - 1) : ℚ) : ℝ))

/-- A start code is visible at position `j`: either the 4-byte form
`00 00 00 01` or the 3-byte form `00 00 01` (this is exactly the
detection condition of both loops of `parse_nal_units`). -/
def hitAt (d : List Nat) (j : Nat) : Prop :=
  (d.drop j).take 4 = [0, 0, 0, 1] ∨ (d.drop j).take 3 = [0, 0, 1]

instance (d : List Nat) (j : Nat) : Decidable (hitAt d j) := by
  unfold hitAt; exact inferInstance

/-- Position of the first start code at or after `j`, if any. -/
def firstSCFrom (d : List Nat) (j : Nat) : Option Nat :=
  if d.length ≤ j then none
  else if hitAt d j then some j
  else firstSCFrom d (j + 1)
termination_by d.length - j
decreasing_by omega

/-- Position of the first start code of the buffer, if any. -/
def firstStartCode (d : List Nat) : Option Nat := firstSCFrom d 0

/-- `b` is a back-to-back concatenation of start codes
(`[0,0,1]` and `[0,0,0,1]` blocks). -/
def scBlocks : List Nat → Bool
  | [] => true
  | 0 :: 0 :: 0 :: 1 :: rest => scBlocks rest
  | 0 :: 0 :: 1 :: rest => scBlocks rest
  | _ => false

/-- The frame records that `analyze_reference_frames` accumulates for a
given unit list (taken out of the loop for reasoning). -/
def framesOf (units : List NalUnit) : List FrameInfo :=
  units.flatMap (fun u =>
    if u.type ∈ ([1, 2, 3, 4, 5] : List Nat) then
      match parse_slice_header u.data with
      | some si => [⟨u.type, si.slice_type, si.is_reference, u.size⟩]
      | none => []
    else [])

/-- The payload cut out at `nal_start = ns`: the bytes from `ns` to the
next start code (`data.read(nal_size)` in the source). -/
def payloadAt (d : List Nat) (ns : Nat) : List Nat :=
  (d.drop ns).take (findNextStart d ns - ns)

/-- The (zero or one) units emitted for the segment whose payload starts
at `ns` (`if nal_data: nal_units.append(...)` in the source). -/
def emitAt (d : List Nat) (ns : Nat) : List NalUnit :=
  if payloadAt d ns = [] then []
  else [{ type := (payloadAt d ns).headD 0 % 32
        , data := payloadAt d ns
        , size := findNextStart d ns - ns
        , offset := ns }]

theorem findNextStart_le (d : List Nat) (j : Nat) : findNextStart d j ≤ d.length := by
  induction j using findNextStart.induct d with
  | case1 j h => rw [findNextStart]; simp [h]
  | case2 j h hsc =>
    rw [findNextStart]
    simp only [h, dite_false, if_pos hsc]
    omega
  | case3 j h hsc ih =>
    rw [findNextStart]
    simp only [h, dite_false, if_neg hsc]
    exact ih

theorem le_findNextStart (d : List Nat) (j : Nat) (hj : j ≤ d.length) :
    j ≤ findNextStart d j := by
  induction j using findNextStart.induct d with
  | case1 j h => rw [findNextStart]; simp [h, hj]
  | case2 j h hsc => rw [findNextStart]; simp [h, hsc]
  | case3 j h hsc ih =>
    rw [findNextStart]
    simp only [h, dite_false, if_neg hsc]
    have h1 := ih (by omega)
    omega

theorem scanOuter_break {d : List Nat} {i : Nat} (h : d.length < i + 4) :
    scanOuter d i = [] := by
  rw [scanOuter]
  simp [h]

theorem scanOuter_advance {d : List Nat} {i : Nat} (h4 : ¬ d.length < i + 4)
    (hsc4 : ¬ (d.drop i).take 4 = [0, 0, 0, 1])
    (hsc3 : ¬ (d.drop i).take 3 = [0, 0, 1]) :
    scanOuter d i = scanOuter d (i + 1) := by
  rw [scanOuter]
  simp [h4, hsc4, hsc3]

theorem scanOuter_hit4 {d : List Nat} {i : Nat} (h4 : ¬ d.length < i + 4)
    (hsc : (d.drop i).take 4 = [0, 0, 0, 1]) :
    scanOuter d i = emitAt d (i + 4) ++ scanOuter d (findNextStart d (i + 4)) := by
  rw [scanOuter]
  simp only [h4, dite_false, if_pos hsc]
  rw [emitAt, payloadAt]

theorem scanOuter_hit3 {d : List Nat} {i : Nat} (h4 : ¬ d.length < i + 4)
    (hsc4 : ¬ (d.drop i).take 4 = [0, 0, 0, 1])
    (hsc3 : (d.drop i).take 3 = [0, 0, 1]) :
    scanOuter d i = emitAt d (i + 3) ++ scanOuter d (findNextStart d (i + 3)) := by
  rw [scanOuter]
  simp only [h4, dite_false, if_neg hsc4, if_pos hsc3]
  rw [emitAt, payloadAt]

theorem parse_slice_header_short (nal_data : List Nat)
    (h : nal_data.length < 2) : parse_slice_header nal_data = none := by
  simp [parse_slice_header, h]

theorem parse_slice_header_eq_some {nal_data : List Nat} {si : SliceInfo}
    (h : parse_slice_header nal_data = some si) :
    2 ≤ nal_data.length
    ∧ si.nal_type = nal_data.headD 0 % 32
    ∧ si.nal_type ∈ ([1, 2, 3, 4, 5] : List Nat)
    ∧ si.is_reference = decide (si.nal_type ∈ ([1, 2, 5] : List Nat)) := by
  by_cases h1 : nal_data.length < 2
  · simp [parse_slice_header, h1] at h
  · obtain ⟨b, rest, rfl⟩ : ∃ b rest, nal_data = b :: rest := by
      cases nal_data with
      | nil => simp at h1
      | cons b rest => exact ⟨b, rest, rfl⟩
    by_cases h2 : b % 32 ∈ ([1, 2, 3, 4, 5] : List Nat)
    · have h2' : b % 32 = 1 ∨ b % 32 = 2 ∨ b % 32 = 3 ∨ b % 32 = 4 ∨ b % 32 = 5 := by
        simpa using h2
      rcases h2' with hc | hc | hc | hc | hc <;>
        · simp [parse_slice_header, h1, hc] at h
          obtain ⟨hr, h⟩ := h
          subst h
          refine ⟨by simp; omega, by simp [hc], by simp [hc], by simp [hc]⟩
    · simp [parse_slice_header, h1, h2] at h

/-- C1: for a slice NAL unit (type 1–5, with at least the 2 bytes the
classifier demands), the derived slice info marks it as a reference
picture exactly when the type is 1, 2 or 5, and as IDR (non-`None`
`idr_pic_id`, `slice_type 'I'`) exactly when the type is 5; types 3 and
4 are non-reference. -/
theorem c1_reference_and_idr_classification (nal_data : List Nat)
    (hlen : 2 ≤ nal_data.length)
    (hty : nal_data.headD 0 % 32 ∈ ([1, 2, 3, 4, 5] : List Nat)) :
    ∃ si, parse_slice_header nal_data = some si
      ∧ (si.is_reference = true ↔ nal_data.headD 0 % 32 ∈ ([1, 2, 5] : List Nat))
      ∧ (si.idr_pic_id.isSome = true ↔ nal_data.headD 0 % 32 = 5)
      ∧ (si.slice_type = some "I" ↔ nal_data.headD 0 % 32 = 5)
      ∧ (nal_data.headD 0 % 32 = 5 →
          si.is_reference = true ∧ si.idr_pic_id = some 0)
      ∧ (nal_data.headD 0 % 32 ∈ ([3, 4] : List Nat) → si.is_reference = false) := by
  have h2 : ¬ nal_data.length < 2 := by omega
  obtain ⟨b, rest, rfl⟩ : ∃ b rest, nal_data = b :: rest := by
    cases nal_data with
    | nil => simp at hlen
    | cons b rest => exact ⟨b, rest, rfl⟩
  have hty' : b % 32 = 1 ∨ b % 32 = 2 ∨ b % 32 = 3 ∨ b % 32 = 4 ∨ b % 32 = 5 := by
    simpa using hty
  rcases hty' with h | h | h | h | h <;>
    · simp [parse_slice_header, h2, h]
      exact ⟨_, ⟨by simp at hlen; omega, rfl⟩, by decide⟩

theorem c1_witness :
    ∃ si, parse_slice_header [5, 0] = some si
      ∧ (si.is_reference = true ↔ [5, 0].headD 0 % 32 ∈ ([1, 2, 5] : List Nat))
      ∧ (si.idr_pic_id.isSome = true ↔ [5, 0].headD 0 % 32 = 5)
      ∧ (si.slice_type = some "I" ↔ [5, 0].headD 0 % 32 = 5)
      ∧ ([5, 0].headD 0 % 32 = 5 →
          si.is_reference = true ∧ si.idr_pic_id = some 0)
      ∧ ([5, 0].headD 0 % 32 ∈ ([3, 4] : List Nat) → si.is_reference = false) :=
  c1_reference_and_idr_classification [5, 0] (by decide) (by decide)

/-- C2 counterexample: the NAL unit `[2, 0]` has nal_type 2 (a slice
type other than 5), yet the classifier leaves `slice_type` unset
(`None`) instead of reporting `"P/B"` — refuting the claim that
`slice_type` is `"P/B"` for every non-IDR slice type 1–4. -/
theorem c2_counterexample :
    ∃ si, parse_slice_header [2, 0] = some si
      ∧ si.nal_type = 2 ∧ si.nal_type ≠ 5
      ∧ si.slice_type = none ∧ ¬ si.slice_type = some "P/B" :=
  ⟨⟨2, none, none, none, true⟩, by decide, by decide, by decide, by decide, by decide⟩

/-- C2 amended: for a slice NAL unit (type 1–5, length ≥ 2) the
classifier sets `slice_type` to `"I"` for nal_type 5, to `"P/B"` for
nal_type 1, and leaves it `None` for nal_types 2, 3 and 4. -/
theorem c2_slice_type_by_nal_type (nal_data : List Nat)
    (hlen : 2 ≤ nal_data.length)
    (hty : nal_data.headD 0 % 32 ∈ ([1, 2, 3, 4, 5] : List Nat)) :
    ∃ si, parse_slice_header nal_data = some si
      ∧ si.slice_type = (if nal_data.headD 0 % 32 = 5 then some "I"
          else if nal_data.headD 0 % 32 = 1 then some "P/B" else none) := by
  have h2 : ¬ nal_data.length < 2 := by omega
  obtain ⟨b, rest, rfl⟩ : ∃ b rest, nal_data = b :: rest := by
    cases nal_data with
    | nil => simp at hlen
    | cons b rest => exact ⟨b, rest, rfl⟩
  have hty' : b % 32 = 1 ∨ b % 32 = 2 ∨ b % 32 = 3 ∨ b % 32 = 4 ∨ b % 32 = 5 := by
    simpa using hty
  rcases hty' with h | h | h | h | h <;>
    · simp [parse_slice_header, h2, h]
      exact ⟨_, ⟨by simp at hlen; omega, rfl⟩, by decide⟩

theorem c2_witness :
    (∃ si, parse_slice_header [1, 0] = some si
      ∧ si.slice_type = (if [1, 0].headD 0 % 32 = 5 then some "I"
          else if [1, 0].headD 0 % 32 = 1 then some "P/B" else none))
    ∧ (∃ si, parse_slice_header [5, 0] = some si
      ∧ si.slice_type = (if [5, 0].headD 0 % 32 = 5 then some "I"
          else if [5, 0].headD 0 % 32 = 1 then some "P/B" else none)) :=
  ⟨c2_slice_type_by_nal_type [1, 0] (by decide) (by decide),
   c2_slice_type_by_nal_type [5, 0] (by decide) (by decide)⟩

theorem arfLoop_frames (units : List NalUnit) : ∀ sps pps fs,
    (arfLoop units sps pps fs).frames = fs ++ framesOf units := by
  induction units with
  | nil => intro sps pps fs; simp [arfLoop, framesOf]
  | cons u rest ih =>
    intro sps pps fs
    by_cases h7 : u.type = 7
    · have : ¬ u.type ∈ ([1, 2, 3, 4, 5] : List Nat) := by simp [h7]
      simp [arfLoop, framesOf, h7, this, ih]
    · by_cases h8 : u.type = 8
      · have : ¬ u.type ∈ ([1, 2, 3, 4, 5] : List Nat) := by simp [h8]
        simp [arfLoop, framesOf, h7, h8, this, ih]
      · by_cases hs : u.type ∈ ([1, 2, 3, 4, 5] : List Nat)
        · have hs' : u.type = 1 ∨ u.type = 2 ∨ u.type = 3 ∨ u.type = 4 ∨
              u.type = 5 := by simpa using hs
          cases hp : parse_slice_header u.data with
          | none => simp [arfLoop, framesOf, h7, h8, hs, hs', hp, ih]
          | some si => simp [arfLoop, framesOf, h7, h8, hs, hs', hp, ih]
        · have hs' : ¬ (u.type = 1 ∨ u.type = 2 ∨ u.type = 3 ∨ u.type = 4 ∨
              u.type = 5) := by simpa using hs
          simp [arfLoop, framesOf, h7, h8, hs, hs', ih]

/-- C10: a NAL unit whose data (header byte plus payload) is shorter
than 2 bytes is never classified — `parse_slice_header` returns `None`
even for slice nal_types — and dropping all such units from the input
leaves the frame list of the reference-frame analysis unchanged, so
they are excluded from its counts. -/
theorem c10_short_units_excluded :
    (∀ nal_data : List Nat, nal_data.length < 2 → parse_slice_header nal_data = none)
    ∧ (∀ units : List NalUnit,
        (analyze_reference_frames units).frames
          = (analyze_reference_frames
              (units.filter (fun u => 2 ≤ u.data.length))).frames) := by
  constructor
  · exact fun nal_data h => parse_slice_header_short nal_data h
  · intro units
    rw [analyze_reference_frames, analyze_reference_frames, arfLoop_frames,
      arfLoop_frames]
    induction units with
    | nil => simp [framesOf]
    | cons u rest ih =>
      by_cases hlen : 2 ≤ u.data.length
      · by_cases hs : u.type ∈ ([1, 2, 3, 4, 5] : List Nat)
        · have hs' : u.type = 1 ∨ u.type = 2 ∨ u.type = 3 ∨ u.type = 4 ∨
              u.type = 5 := by simpa using hs
          cases hp : parse_slice_header u.data with
          | none => simpa [framesOf, hlen, hs', hp] using ih
          | some si => simpa [framesOf, hlen, hs', hp] using ih
        · have hs' : ¬ (u.type = 1 ∨ u.type = 2 ∨ u.type = 3 ∨ u.type = 4 ∨
              u.type = 5) := by simpa using hs
          simpa [framesOf, hlen, hs'] using ih
      · have hp : parse_slice_header u.data = none :=
          parse_slice_header_short _ (by omega)
        by_cases hs : u.type ∈ ([1, 2, 3, 4, 5] : List Nat)
        · have hs' : u.type = 1 ∨ u.type = 2 ∨ u.type = 3 ∨ u.type = 4 ∨
              u.type = 5 := by simpa using hs
          simpa [framesOf, hlen, hs', hp] using ih
        · have hs' : ¬ (u.type = 1 ∨ u.type = 2 ∨ u.type = 3 ∨ u.type = 4 ∨
              u.type = 5) := by simpa using hs
          simpa [framesOf, hlen, hs'] using ih

theorem c10_witness :
    parse_slice_header [5] = none
    ∧ (analyze_reference_frames [⟨5, [5], 1, 0⟩]).frames
        = (analyze_reference_frames
            ([⟨5, [5], 1, 0⟩].filter (fun u => 2 ≤ u.data.length))).frames :=
  ⟨c10_short_units_excluded.1 [5] (by decide),
   c10_short_units_excluded.2 [⟨5, [5], 1, 0⟩]⟩

theorem gopLoop_index_flatten (frames : List FrameRecord) :
    ∀ (i : Nat) (gops : List (List GopFrame)) (current : List GopFrame),
    ((gopLoop frames i gops current).map (fun g => g.map GopFrame.index)).flatten
      = (gops.map (fun g => g.map GopFrame.index)).flatten
        ++ current.map GopFrame.index ++ List.range' i frames.length := by
  induction frames with
  | nil =>
    intro i gops current
    by_cases hc : current = []
    · simp [gopLoop, hc]
    · simp [gopLoop, hc]
  | cons f rest ih =>
    intro i gops current
    by_cases hI : f.pict_type.getD "Unknown" = "I"
    · by_cases hc : current = []
      · simp [gopLoop, hI, hc, ih, List.range'_succ]
      · simp [gopLoop, hI, hc, ih, List.range'_succ]
    · simp [gopLoop, hI, ih, List.range'_succ]

/-- C4: the GOP segmenter assigns every input frame to exactly one GOP —
the concatenated frame indices of its output are exactly
`0, 1, …, n-1` in input order — hence GOP sizes sum to the input frame
count, GOP order follows first-frame order, and an empty input yields
no GOPs. -/
theorem c4_gop_partition (frames : List FrameRecord) :
    ((analyze_gop_structure frames).map (fun g => g.map GopFrame.index)).flatten
      = List.range frames.length
    ∧ ((analyze_gop_structure frames).map List.length).sum = frames.length
    ∧ analyze_gop_structure ([] : List FrameRecord) = [] := by
  have h1 : ((analyze_gop_structure frames).map
      (fun g => g.map GopFrame.index)).flatten = List.range frames.length := by
    rw [analyze_gop_structure, gopLoop_index_flatten, List.range_eq_range']
    simp
  refine ⟨h1, ?_, by simp [analyze_gop_structure, gopLoop]⟩
  have h2 := congrArg List.length h1
  rw [List.length_flatten, List.length_range, List.map_map] at h2
  simpa [Function.comp_def] using h2

theorem sum_map_mul_eight (l : List ℚ) : (l.map (· * 8)).sum = l.sum * 8 := by
  induction l with
  | nil => simp
  | cons x xs ih => simp [ih, add_mul]

/-- C5: for a non-empty frame-size list and positive framerate the
average bitrate is `Σ(size_i × 8)` divided by `frame_count / framerate`
(both code sites agree), it is 0 whenever the duration is 0, and
`[1000,1000,1000,1000]` at 60 fps gives 480000 bits/s. -/
theorem c5_average_bitrate :
    (∀ (sizes : List ℚ) (framerate : ℚ), sizes ≠ [] → 0 < framerate →
      avg_bitrate_of sizes framerate
        = (sizes.map (· * 8)).sum / ((sizes.length : ℚ) / framerate)
      ∧ analyze_video_avg_bitrate sizes framerate = avg_bitrate_of sizes framerate)
    ∧ (∀ (sizes : List ℚ) (framerate : ℚ),
        (sizes.length : ℚ) / framerate = 0 → avg_bitrate_of sizes framerate = 0)
    ∧ avg_bitrate_of [1000, 1000, 1000, 1000] 60 = 480000 := by
  refine ⟨?_, ?_, ?_⟩
  · intro sizes fr hne hfr
    have hlen : 0 < (sizes.length : ℚ) := by
      have h := List.length_pos.mpr hne
      exact_mod_cast h
    have hdur : 0 < (sizes.length : ℚ) / fr := div_pos hlen hfr
    constructor
    · simp only [avg_bitrate_of, if_pos hdur]
    · simp only [avg_bitrate_of, analyze_video_avg_bitrate, if_pos hdur,
        sum_map_mul_eight]
  · intro sizes fr h
    simp [avg_bitrate_of, h]
  · norm_num [avg_bitrate_of]

theorem c5_witness :
    (avg_bitrate_of [1000, 1000, 1000, 1000] 60
        = (([1000, 1000, 1000, 1000] : List ℚ).map (· * 8)).sum
          / ((([1000, 1000, 1000, 1000] : List ℚ).length : ℚ) / 60)
      ∧ analyze_video_avg_bitrate [1000, 1000, 1000, 1000] 60
        = avg_bitrate_of [1000, 1000, 1000, 1000] 60)
    ∧ avg_bitrate_of [] 7 = 0 :=
  ⟨c5_average_bitrate.1 [1000, 1000, 1000, 1000] 60 (by simp) (by norm_num),
   c5_average_bitrate.2.1 [] 7 (by norm_num)⟩

/-- C6: on the empty frame-size sequence both bitrate computations
return 0 (the guarded division degrades gracefully; the functions are
total, so no failure occurs). -/
theorem c6_empty_input_bitrate_zero (framerate : ℚ) :
    avg_bitrate_of [] framerate = 0
    ∧ analyze_video_avg_bitrate [] framerate = 0 := by
  constructor <;> simp [avg_bitrate_of, analyze_video_avg_bitrate]

/-- C9: the reported frame-size standard deviation is the population
formula `sqrt(mean((x-mean)^2))` with divisor `n`; on `[0, 2]` it equals
1, whereas the Bessel-corrected sample formula (divisor `n-1`) gives
`sqrt 2` — so the two formulas differ on the code's formula's own
output. -/
theorem c9_population_std_not_bessel :
    (∀ sizes : List ℚ, sizes ≠ [] →
      frame_std sizes
        = Real.sqrt ((((sizes.map (fun x => (x - sizes.sum / sizes.length) ^ 2)).sum
            / (sizes.length : ℚ) : ℚ) : ℝ)))
    ∧ frame_std [0, 2] = 1
    ∧ bessel_std_spec [0, 2] = Real.sqrt 2
    ∧ frame_std [0, 2] ≠ bessel_std_spec [0, 2] := by
  have hvar : frame_var [0, 2] = 1 := by norm_num [frame_var, frame_avg]
  have h1 : frame_std ([0, 2] : List ℚ) = 1 := by
    rw [frame_std, hvar]
    norm_num [Real.sqrt_one]
  have h2 : bessel_std_spec [0, 2] = Real.sqrt 2 := by
    rw [bessel_std_spec]
    norm_num [frame_avg]
  refine ⟨fun sizes _ => rfl, h1, h2, ?_⟩
  rw [h1, h2]
  intro h
  have h3 := Real.sqrt_eq_one.mp h.symm
  norm_num at h3

theorem c9_witness :
    frame_std [0, 2]
      = Real.sqrt (((([0, 2] : List ℚ).map
          (fun x => (x - ([0, 2] : List ℚ).sum / ([0, 2] : List ℚ).length) ^ 2)).sum
            / ((([0, 2] : List ℚ).length : ℚ)) : ℚ)) :=
  c9_population_std_not_bessel.1 [0, 2] (by simp)

theorem scan_units_sound (d : List Nat) (i : Nat) :
    ∀ u ∈ scanOuter d i,
      u.data = payloadAt d u.offset
      ∧ u.size = u.data.length
      ∧ u.data ≠ []
      ∧ u.type = u.data.headD 0 % 32
      ∧ u.offset + u.size = findNextStart d u.offset := by
  induction i using scanOuter.induct d with
  | case1 i h =>
    rw [scanOuter_break h]
    intro u hu
    simp at hu
  | case2 i h4 hsc ns r ih =>
    rw [scanOuter_hit4 h4 hsc]
    intro u hu
    rcases List.mem_append.mp hu with hu | hu
    · rw [emitAt] at hu
      by_cases hp : payloadAt d (i + 4) = []
      · simp [hp] at hu
      · simp only [hp, if_neg, ite_false, List.mem_singleton] at hu
        subst hu
        have hle : findNextStart d (i + 4) ≤ d.length := findNextStart_le d (i + 4)
        have hge : i + 4 ≤ findNextStart d (i + 4) :=
          le_findNextStart d (i + 4) (by omega)
        refine ⟨rfl, ?_, hp, rfl, by simp; omega⟩
        simp [payloadAt, List.length_take, List.length_drop]
        omega
    · exact ih u hu
  | case3 i h4 hsc4 hsc3 ns r ih =>
    rw [scanOuter_hit3 h4 hsc4 hsc3]
    intro u hu
    rcases List.mem_append.mp hu with hu | hu
    · rw [emitAt] at hu
      by_cases hp : payloadAt d (i + 3) = []
      · simp [hp] at hu
      · simp only [hp, if_neg, ite_false, List.mem_singleton] at hu
        subst hu
        have hle : findNextStart d (i + 3) ≤ d.length := findNextStart_le d (i + 3)
        have hge : i + 3 ≤ findNextStart d (i + 3) :=
          le_findNextStart d (i + 3) (by omega)
        refine ⟨rfl, ?_, hp, rfl, by simp; omega⟩
        simp [payloadAt, List.length_take, List.length_drop]
        omega
    · exact ih u hu
  | case4 i h4 hsc4 hsc3 ih =>
    rw [scanOuter_advance h4 hsc4 hsc3]
    exact ih

/-- C7: every NAL unit the scanner emits has a 5-bit `nal_type` (in
[0,31]) and a payload of length at least 1; a unit with an empty
computed payload is never emitted. -/
theorem c7_unit_invariants (d : List Nat) :
    ∀ u ∈ parse_nal_units d,
      u.type < 32 ∧ 1 ≤ u.size ∧ u.data ≠ [] ∧ u.size = u.data.length := by
  intro u hu
  obtain ⟨h1, h2, h3, h4, h5⟩ := scan_units_sound d 0 u hu
  refine ⟨?_, ?_, h3, h2⟩
  · rw [h4]
    exact Nat.mod_lt _ (by norm_num)
  · rw [h2]
    exact List.length_pos.mpr h3

theorem c7_witness :
    ((⟨5, [37, 9], 2, 3⟩ : NalUnit) ∈ parse_nal_units [0, 0, 1, 37, 9])
    ∧ ((⟨5, [37, 9], 2, 3⟩ : NalUnit).type < 32
        ∧ 1 ≤ (⟨5, [37, 9], 2, 3⟩ : NalUnit).size
        ∧ (⟨5, [37, 9], 2, 3⟩ : NalUnit).data ≠ []
        ∧ (⟨5, [37, 9], 2, 3⟩ : NalUnit).size
            = (⟨5, [37, 9], 2, 3⟩ : NalUnit).data.length) := by
  have he : parse_nal_units [0, 0, 1, 37, 9] = [⟨5, [37, 9], 2, 3⟩] := by
    simp [parse_nal_units]
    rw [scanOuter]
    simp [findNextStart]
    rw [scanOuter]
    simp
  have hm : (⟨5, [37, 9], 2, 3⟩ : NalUnit) ∈ parse_nal_units [0, 0, 1, 37, 9] := by
    rw [he]
    simp
  exact ⟨hm, c7_unit_invariants [0, 0, 1, 37, 9] _ hm⟩

theorem findNextStart_spec (d : List Nat) (j : Nat) :
    findNextStart d j = d.length ∨ hitAt d (findNextStart d j) := by
  induction j using findNextStart.induct d with
  | case1 j h =>
    rw [findNextStart]
    simp [h]
  | case2 j h hsc =>
    rw [findNextStart]
    simp only [h, dite_false, if_pos hsc]
    exact Or.inr hsc
  | case3 j h hsc ih =>
    rw [findNextStart]
    simp only [h, dite_false, if_neg hsc]
    exact ih

theorem not_hitAt_of_le {d : List Nat} {k : Nat} (h : d.length ≤ k) :
    ¬ hitAt d k := by
  simp [hitAt, List.drop_eq_nil_of_le h]

theorem firstSCFrom_none (d : List Nat) : ∀ j, firstSCFrom d j = none →
    ∀ k, j ≤ k → ¬ hitAt d k := by
  intro j
  induction j using firstSCFrom.induct d with
  | case1 j hj =>
    intro _ k hk
    exact not_hitAt_of_le (by omega)
  | case2 j hj hhit =>
    intro h
    rw [firstSCFrom] at h
    simp [hj, hhit] at h
  | case3 j hj hhit ih =>
    intro h k hk
    rw [firstSCFrom] at h
    simp only [hj, ite_false, if_neg hhit, if_false] at h
    rcases Nat.eq_or_lt_of_le hk with rfl | hlt
    · exact hhit
    · exact ih h k (by omega)

theorem firstSCFrom_some (d : List Nat) : ∀ j f, firstSCFrom d j = some f →
    j ≤ f ∧ hitAt d f ∧ ∀ k, j ≤ k → k < f → ¬ hitAt d k := by
  intro j
  induction j using firstSCFrom.induct d with
  | case1 j hj =>
    intro f h
    rw [firstSCFrom] at h
    simp [hj] at h
  | case2 j hj hhit =>
    intro f h
    rw [firstSCFrom] at h
    simp only [hj, ite_false, if_pos hhit, if_false, Option.some.injEq] at h
    subst h
    exact ⟨le_rfl, hhit, fun k hk1 hk2 => absurd (le_trans hk1 (le_of_lt hk2)) (by omega)⟩
  | case3 j hj hhit ih =>
    intro f h
    rw [firstSCFrom] at h
    simp only [hj, ite_false, if_neg hhit, if_false] at h
    obtain ⟨h1, h2, h3⟩ := ih f h
    refine ⟨by omega, h2, ?_⟩
    intro k hk1 hk2
    rcases Nat.eq_or_lt_of_le hk1 with rfl | hlt
    · exact hhit
    · exact h3 k (by omega) hk2

theorem scan_skip (d : List Nat) : ∀ (n i k : Nat), k - i ≤ n → i ≤ k →
    (∀ j, i ≤ j → j < k → ¬ hitAt d j) → scanOuter d i = scanOuter d k := by
  intro n
  induction n with
  | zero =>
    intro i k h1 h2 _
    have : i = k := by omega
    rw [this]
  | succ n ih =>
    intro i k h1 h2 hno
    by_cases hik : i = k
    · rw [hik]
    · have hlt : i < k := by omega
      by_cases h4 : d.length < i + 4
      · rw [scanOuter_break h4, scanOuter_break (show d.length < k + 4 by omega)]
      · have hnh := hno i le_rfl hlt
        have hsc4 : ¬ (d.drop i).take 4 = [0, 0, 0, 1] := fun hc => hnh (Or.inl hc)
        have hsc3 : ¬ (d.drop i).take 3 = [0, 0, 1] := fun hc => hnh (Or.inr hc)
        rw [scanOuter_advance h4 hsc4 hsc3]
        exact ih (i + 1) k (by omega) (by omega) (fun j hj1 hj2 => hno j (by omega) hj2)

theorem scan_segments_step (d : List Nat) (n i scLen : Nat) (sc : List Nat)
    (hlen : i + 4 ≤ d.length) (hscl : scLen ≤ 4) (hscl3 : 3 ≤ scLen)
    (htake : (d.drop i).take scLen = sc)
    (hscb : scBlocks sc = true) (hscne : sc ≠ [])
    (hunf : scanOuter d i
      = emitAt d (i + scLen) ++ scanOuter d (findNextStart d (i + scLen)))
    (ih : ∀ i', d.length - i' ≤ n → i' + 4 ≤ d.length → hitAt d i' →
      ∃ segs : List (List Nat × List Nat),
        (segs.map fun s => s.1 ++ s.2).flatten = d.drop i'
        ∧ (∀ s ∈ segs, scBlocks s.1 = true ∧ s.1 ≠ [])
        ∧ (scanOuter d i').map NalUnit.data
            = (segs.map Prod.snd).filter (fun p => ¬ p = []))
    (hn : d.length - i ≤ n + 3) :
    ∃ segs : List (List Nat × List Nat),
      (segs.map fun s => s.1 ++ s.2).flatten = d.drop i
      ∧ (∀ s ∈ segs, scBlocks s.1 = true ∧ s.1 ≠ [])
      ∧ (scanOuter d i).map NalUnit.data
          = (segs.map Prod.snd).filter (fun p => ¬ p = []) := by
  have hns : i + scLen ≤ d.length := by omega
  obtain ⟨r, hrdef⟩ : ∃ r, findNextStart d (i + scLen) = r := ⟨_, rfl⟩
  have hr_le : r ≤ d.length := hrdef ▸ findNextStart_le d (i + scLen)
  have hr_ge : i + scLen ≤ r := hrdef ▸ le_findNextStart d (i + scLen) hns
  have hrspec : r = d.length ∨ hitAt d r := hrdef ▸ findNextStart_spec d (i + scLen)
  obtain ⟨p, hpdef⟩ : ∃ p, payloadAt d (i + scLen) = p := ⟨_, rfl⟩
  have hp_eq : p = (d.drop (i + scLen)).take (r - (i + scLen)) := by
    rw [← hpdef, payloadAt, hrdef]
  have hsplit1 : d.drop i = sc ++ d.drop (i + scLen) := by
    conv_lhs => rw [← List.take_append_drop scLen (d.drop i)]
    rw [htake, List.drop_drop]
  have hsplit2 : d.drop (i + scLen) = p ++ d.drop r := by
    rw [hp_eq]
    conv_lhs =>
      rw [← List.take_append_drop (r - (i + scLen)) (d.drop (i + scLen))]
    rw [List.drop_drop, Nat.add_sub_cancel' hr_ge]
  have hunf2 : scanOuter d i = emitAt d (i + scLen) ++ scanOuter d r := by
    rw [hunf, hrdef]
  have hemit : (emitAt d (i + scLen)).map NalUnit.data
      = if p = [] then [] else [p] := by
    rw [emitAt, hpdef]
    by_cases hp0 : p = [] <;> simp [hp0]
  by_cases hrl : r = d.length
  · subst hrl
    refine ⟨[(sc, p)], ?_, ?_, ?_⟩
    · simp [hsplit1, hsplit2, List.drop_length]
    · intro s hs
      simp at hs
      subst hs
      exact ⟨hscb, hscne⟩
    · rw [hunf2, scanOuter_break (show d.length < d.length + 4 by omega)]
      by_cases hp0 : p = [] <;> simp [hemit, hp0]
  · have hhit_r : hitAt d r := by
      rcases hrspec with h | h
      · exact absurd h hrl
      · exact h
    by_cases hr4 : r + 4 ≤ d.length
    · obtain ⟨segs, hflat, hgaps, hpay⟩ := ih r (by omega) hr4 hhit_r
      refine ⟨(sc, p) :: segs, ?_, ?_, ?_⟩
      · simp only [List.map_cons, List.flatten_cons]
        rw [hflat, hsplit1, hsplit2, List.append_assoc]
      · intro s hs
        rcases List.mem_cons.mp hs with rfl | hs
        · exact ⟨hscb, hscne⟩
        · exact hgaps s hs
      · rw [hunf2, List.map_append, hemit, hpay]
        simp only [List.map_cons]
        by_cases hp0 : p = [] <;> simp [hp0, List.filter_cons]
    · obtain ⟨hr3len, hr3⟩ : r + 3 ≤ d.length ∧ (d.drop r).take 3 = [0, 0, 1] := by
        rcases hhit_r with hc | hc
        · have hlc := congrArg List.length hc
          simp [List.length_take, List.length_drop] at hlc
          omega
        · constructor
          · have hlc := congrArg List.length hc
            simp [List.length_take, List.length_drop] at hlc
            omega
          · exact hc
      have hdropr : d.drop r = [0, 0, 1] := by
        rw [← hr3]
        exact (List.take_of_length_le (by simp [List.length_drop]; omega)).symm
      refine ⟨[(sc, p), ([0, 0, 1], [])], ?_, ?_, ?_⟩
      · simp [hsplit1, hsplit2, hdropr]
      · intro s hs
        simp at hs
        rcases hs with rfl | rfl
        · exact ⟨hscb, hscne⟩
        · exact ⟨by decide, by decide⟩
      · rw [hunf2, scanOuter_break (show d.length < r + 4 by omega)]
        by_cases hp0 : p = [] <;> simp [hemit, hp0]

theorem scan_segments (d : List Nat) : ∀ (n i : Nat), d.length - i ≤ n →
    i + 4 ≤ d.length → hitAt d i →
    ∃ segs : List (List Nat × List Nat),
      (segs.map fun s => s.1 ++ s.2).flatten = d.drop i
      ∧ (∀ s ∈ segs, scBlocks s.1 = true ∧ s.1 ≠ [])
      ∧ (scanOuter d i).map NalUnit.data
          = (segs.map Prod.snd).filter (fun p => ¬ p = []) := by
  intro n
  induction n with
  | zero =>
    intro i h1 h2 _
    omega
  | succ n ih =>
    intro i hn hlen hhit
    rcases hhit with hsc4 | hsc3
    · exact scan_segments_step d n i 4 [0, 0, 0, 1] hlen (by omega) (by omega) hsc4
        (by decide) (by decide) (scanOuter_hit4 (by omega) hsc4) ih (by omega)
    · have hns4 : ¬ (d.drop i).take 4 = [0, 0, 0, 1] := by
        intro hc
        have h1 := congrArg (List.take 3) hc
        rw [List.take_take] at h1
        simp at h1
        rw [hsc3] at h1
        simp at h1
      exact scan_segments_step d n i 3 [0, 0, 1] hlen (by omega) (by omega) hsc3
        (by decide) (by decide) (scanOuter_hit3 (by omega) hns4 hsc3) ih (by omega)

/-- C3: (a) a buffer with no start code anywhere (equivalently, one on
which the first-start-code search fails) yields no NAL units; (b) when
a first start code exists at `f`, the suffix `d.drop f` is exactly the
back-to-back concatenation of start-code gap blocks and the scanner's
payloads, whose non-empty ones are precisely the emitted payloads in
order; (c) every emitted payload occupies the bytes from the end of its
start code (its `offset`) up to the next start code — end of buffer if
none follows. -/
theorem c3_scanner_reconstruction (d : List Nat) :
    ((∀ j, ¬ hitAt d j) → parse_nal_units d = [])
    ∧ (firstStartCode d = none → parse_nal_units d = [])
    ∧ (∀ f, firstStartCode d = some f →
        ∃ segs : List (List Nat × List Nat),
          (segs.map fun s => s.1 ++ s.2).flatten = d.drop f
          ∧ (∀ s ∈ segs, scBlocks s.1 = true ∧ s.1 ≠ [])
          ∧ (parse_nal_units d).map NalUnit.data
              = (segs.map Prod.snd).filter (fun p => ¬ p = []))
    ∧ (∀ u ∈ parse_nal_units d,
        u.data = (d.drop u.offset).take (findNextStart d u.offset - u.offset)
        ∧ u.offset + u.size = findNextStart d u.offset) := by
  have hnone : (∀ j, ¬ hitAt d j) → parse_nal_units d = [] := by
    intro hno
    rw [parse_nal_units,
      scan_skip d d.length 0 d.length (by omega) (by omega)
        (fun j _ _ => hno j),
      scanOuter_break (show d.length < d.length + 4 by omega)]
  refine ⟨hnone, ?_, ?_, ?_⟩
  · intro h
    exact hnone (fun j => firstSCFrom_none d 0 h j (by omega))
  · intro f hf
    obtain ⟨hf0, hhit, hmin⟩ := firstSCFrom_some d 0 f hf
    have hskip : scanOuter d 0 = scanOuter d f :=
      scan_skip d f 0 f (by omega) (by omega)
        (fun j hj1 hj2 => hmin j (by omega) hj2)
    by_cases hf4 : f + 4 ≤ d.length
    · obtain ⟨segs, hflat, hgaps, hpay⟩ :=
        scan_segments d d.length f (by omega) hf4 hhit
      exact ⟨segs, hflat, hgaps, by rw [parse_nal_units, hskip]; exact hpay⟩
    · obtain ⟨hf3len, hf3⟩ : f + 3 ≤ d.length ∧ (d.drop f).take 3 = [0, 0, 1] := by
        rcases hhit with hc | hc
        · have hlc := congrArg List.length hc
          simp [List.length_take, List.length_drop] at hlc
          omega
        · constructor
          · have hlc := congrArg List.length hc
            simp [List.length_take, List.length_drop] at hlc
            omega
          · exact hc
      have hdropf : d.drop f = [0, 0, 1] := by
        rw [← hf3]
        exact (List.take_of_length_le (by simp [List.length_drop]; omega)).symm
      refine ⟨[([0, 0, 1], [])], by simp [hdropf], ?_, ?_⟩
      · intro s hs
        simp at hs
        subst hs
        exact ⟨by decide, by decide⟩
      · rw [parse_nal_units, hskip,
          scanOuter_break (show d.length < f + 4 by omega)]
        simp
  · intro u hu
    obtain ⟨h1, _, _, _, h5⟩ := scan_units_sound d 0 u hu
    refine ⟨?_, h5⟩
    rw [h1, payloadAt]

theorem c3_witness :
    parse_nal_units [1, 2, 3] = []
    ∧ parse_nal_units [2, 0, 0] = []
    ∧ (∃ segs : List (List Nat × List Nat),
        (segs.map fun s => s.1 ++ s.2).flatten = List.drop 0 [0, 0, 1, 37, 9]
        ∧ (∀ s ∈ segs, scBlocks s.1 = true ∧ s.1 ≠ [])
        ∧ (parse_nal_units [0, 0, 1, 37, 9]).map NalUnit.data
            = (segs.map Prod.snd).filter (fun p => ¬ p = []))
    ∧ ((⟨5, [37, 9], 2, 3⟩ : NalUnit).data
        = (List.drop (⟨5, [37, 9], 2, 3⟩ : NalUnit).offset [0, 0, 1, 37, 9]).take
            (findNextStart [0, 0, 1, 37, 9] (⟨5, [37, 9], 2, 3⟩ : NalUnit).offset
              - (⟨5, [37, 9], 2, 3⟩ : NalUnit).offset)
        ∧ (⟨5, [37, 9], 2, 3⟩ : NalUnit).offset
            + (⟨5, [37, 9], 2, 3⟩ : NalUnit).size
          = findNextStart [0, 0, 1, 37, 9] (⟨5, [37, 9], 2, 3⟩ : NalUnit).offset) := by
  refine ⟨?_, ?_, ?_, ?_⟩
  · refine (c3_scanner_reconstruction [1, 2, 3]).1 ?_
    intro j
    by_cases h : 3 ≤ j
    · exact not_hitAt_of_le (by simpa)
    · interval_cases j <;> decide
  · refine (c3_scanner_reconstruction [2, 0, 0]).2.1 ?_
    simp +decide [firstStartCode, firstSCFrom]
  · refine (c3_scanner_reconstruction [0, 0, 1, 37, 9]).2.2.1 0 ?_
    simp +decide [firstStartCode, firstSCFrom]
  · refine (c3_scanner_reconstruction [0, 0, 1, 37, 9]).2.2.2 ⟨5, [37, 9], 2, 3⟩ ?_
    have he : parse_nal_units [0, 0, 1, 37, 9] = [⟨5, [37, 9], 2, 3⟩] := by
      simp [parse_nal_units]
      rw [scanOuter]
      simp [findNextStart]
      rw [scanOuter]
      simp
    rw [he]
    simp

theorem framesOf_mem {units : List NalUnit}
    (hty : ∀ u ∈ units, u.type = u.data.headD 0 % 32) :
    ∀ f ∈ framesOf units,
      f.nal_type ∈ ([1, 2, 3, 4, 5] : List Nat)
      ∧ f.is_reference = decide (f.nal_type ∈ ([1, 2, 5] : List Nat)) := by
  induction units with
  | nil =>
    intro f hf
    simp [framesOf] at hf
  | cons u rest ih =>
    intro f hf
    rw [framesOf] at hf
    simp only [List.flatMap_cons] at hf
    rcases List.mem_append.mp hf with hf | hf
    · by_cases hs : u.type ∈ ([1, 2, 3, 4, 5] : List Nat)
      · rw [if_pos hs] at hf
        cases hp : parse_slice_header u.data with
        | none =>
          rw [hp] at hf
          simp at hf
        | some si =>
          rw [hp] at hf
          simp at hf
          subst hf
          obtain ⟨_, hty_eq, hmem, href⟩ := parse_slice_header_eq_some hp
          have hut : u.type = si.nal_type := by
            rw [hty u (List.mem_cons_self u rest), hty_eq]
          constructor
          · simpa [hut] using hmem
          · simpa [hut] using href
      · rw [if_neg hs] at hf
        simp at hf
    · exact ih (fun v hv => hty v (List.mem_cons_of_mem u hv)) f hf

theorem count_ref_split (fs : List FrameInfo)
    (h : ∀ f ∈ fs, f.nal_type ∈ ([1, 2, 3, 4, 5] : List Nat)
      ∧ f.is_reference = decide (f.nal_type ∈ ([1, 2, 5] : List Nat))) :
    fs.countP (fun f => f.nal_type = 5)
      + fs.countP (fun f => decide (f.nal_type ∈ ([1, 2] : List Nat)) && f.is_reference)
      = fs.countP (fun f => f.is_reference) := by
  induction fs with
  | nil => simp
  | cons f fs ih =>
    obtain ⟨hmem, href⟩ := h f (List.mem_cons_self f fs)
    have ih' := ih (fun g hg => h g (List.mem_cons_of_mem f hg))
    have hmem' : f.nal_type = 1 ∨ f.nal_type = 2 ∨ f.nal_type = 3 ∨
        f.nal_type = 4 ∨ f.nal_type = 5 := by simpa using hmem
    simp only [List.countP_cons]
    rcases hmem' with hc | hc | hc | hc | hc <;>
      · simp [hc, href] at ih' ⊢
        omega

/-- C8: the reference ratio is `(count of reference-classified) /
(total classified) × 100` and 0 with no classified units; on the
classifier's own output the IDR+non-IDR-reference accounting of
`print_reference_analysis` agrees with that count; the classified list
`[ref, ref, nonref, ref]` gives 75. -/
theorem c8_reference_ratio :
    (∀ frames : List FrameInfo, frames ≠ [] →
      ref_ratio_of frames
        = ((frames.countP (fun f => f.is_reference)) : ℚ) / frames.length * 100)
    ∧ ref_ratio_of [] = 0
    ∧ (∀ d : List Nat,
        print_ref_ratio_of (analyze_reference_frames (parse_nal_units d)).frames
          = ref_ratio_of (analyze_reference_frames (parse_nal_units d)).frames)
    ∧ ref_ratio_of
        [⟨5, some "I", true, 10⟩, ⟨1, some "P/B", true, 4⟩,
         ⟨3, none, false, 4⟩, ⟨1, some "P/B", true, 4⟩] = 75 := by
  refine ⟨?_, by simp [ref_ratio_of], ?_, ?_⟩
  · intro frames hne
    rw [ref_ratio_of, if_neg hne]
  · intro d
    have hty : ∀ u ∈ parse_nal_units d, u.type = u.data.headD 0 % 32 := by
      intro u hu
      exact (scan_units_sound d 0 u hu).2.2.2.1
    have hfr : (analyze_reference_frames (parse_nal_units d)).frames
        = framesOf (parse_nal_units d) := by
      rw [analyze_reference_frames, arfLoop_frames]
      simp
    rw [hfr]
    have hcount := count_ref_split (framesOf (parse_nal_units d)) (framesOf_mem hty)
    simp only [print_ref_ratio_of, ref_ratio_of]
    by_cases h0 : framesOf (parse_nal_units d) = []
    · simp [h0]
    · rw [if_neg h0, if_neg h0, hcount]
  · norm_num [ref_ratio_of, List.countP, List.countP.go]
    simp

theorem c8_witness :
    ref_ratio_of
        [⟨5, some "I", true, 10⟩, ⟨1, some "P/B", true, 4⟩,
         ⟨3, none, false, 4⟩, ⟨1, some "P/B", true, 4⟩]
      = ((([⟨5, some "I", true, 10⟩, ⟨1, some "P/B", true, 4⟩,
            ⟨3, none, false, 4⟩, ⟨1, some "P/B", true, 4⟩] : List FrameInfo).countP
              (fun f => f.is_reference)) : ℚ)
          / ([⟨5, some "I", true, 10⟩, ⟨1, some "P/B", true, 4⟩,
              ⟨3, none, false, 4⟩, ⟨1, some "P/B", true, 4⟩] : List FrameInfo).length
          * 100 :=
  c8_reference_ratio.1
    [⟨5, some "I", true, 10⟩, ⟨1, some "P/B", true, 4⟩,
     ⟨3, none, false, 4⟩, ⟨1, some "P/B", true, 4⟩] (by simp)
